import Mathlib

/-!
Verification of the rollup execution client (executor loop and HTTP API).

The executor (`src/executor.rs`, `run_executor`) is embedded as a deterministic
small-step state machine.  All interaction with the two external collaborators
(the HotShot query service = Block Source Adapter, and the L1 contracts =
Anchor Contract Adapter) is captured by an explicit environment `Env` of
response oracles; the machine `step` mirrors the control flow of
`run_executor` statement by statement, and `run` iterates it, accumulating a
trace of observable events (block applications, submission attempts and
successes, retry sleeps, fatal exits).

The HTTP API handlers (`src/api.rs`, `serve`) are embedded separately as pure
functions at the end of the file.
-/

namespace SequencerL2

/-- Reasons for which `run_executor` returns (the process-fatal exits). -/
inductive FatalReason where
  | rpcConnect
  | wsConnect
  | logSubscribe
  | heightRead
  | commitmentRead (h : Nat)
  | commitmentDeserialize (h : Nat)
  | blockFetch (h : Nat)
  | hashMismatch (h : Nat)
deriving DecidableEq, Repr

/-- Observable events of one executor step. -/
inductive Event where
  | applied (h : Nat)
  | submitAttempt (h k sc pf : Nat)
  | submitSuccess (h : Nat)
  | sleepSec (s : Nat)
  | fatal (r : FatalReason)
deriving DecidableEq, Repr

/-- Program points of `run_executor`.  `startup` covers the connection
preamble; `loopTop` is the `hotshot_contract.block_height()` read at the top
of the outer loop; `heightLoop i ch` is the body of `for i in
block_height..current_block_height` about to process height `i`;
`lockAcq`/`critical` are the acquisition of the state write lock and the
`execute_block` + `commit` critical section; `submitting` is the
`contract_send` retry loop with its attempt counter; `awaitEvent` is the
`block_height = current_block_height; stream.next().await` tail; `exited`
is the function having returned. -/
inductive PC where
  | startup
  | loopTop
  | heightLoop (i ch : Nat)
  | lockAcq (i ch b : Nat)
  | critical (i ch b : Nat)
  | submitting (i ch sc pf k : Nat)
  | awaitEvent (ch : Nat)
  | exited
deriving DecidableEq, Repr

/-- Executor state: program point, the mutable `block_height` variable, the
number of completed outer loop iterations (indexing contract-height reads),
the rollup ledger state behind the `RwLock`, and whether the executor holds
the write lock. -/
structure Config where
  pc : PC
  blockHeight : Nat
  outer : Nat
  ledger : Nat
  lockHeld : Bool
deriving DecidableEq, Repr

/-- Environment of external-collaborator responses.  `hotshotConnectOk` is
the result of `hotshot.connect(None)` (the source discards it);
`contractHeight k` is the result of the `k`-th `block_height()` contract
call; `commitments h` the raw 32-byte word read from
`hotshot_contract.commitments(h)`; `deserializeHash` the
`BlockHash::deserialize` step on those bytes; `getBlock h` the block query;
`blockCommit` the `block.block().commit()` hash of a fetched block;
`submitOk h k` whether the `k`-th `contract_send(new_block ...)` attempt for
height `h` succeeds; `executeBlock`/`ledgerCommit` the rollup `State`
operations (ledger state, blocks, hashes, commitments and proofs are
abstracted as natural numbers). -/
structure Env where
  hotshotConnectOk : Bool
  connectRpcOk : Bool
  wsConnectOk : Bool
  subscribeLogsOk : Bool
  contractHeight : Nat → Option Nat
  commitments : Nat → Option Nat
  deserializeHash : Nat → Option Nat
  getBlock : Nat → Option Nat
  blockCommit : Nat → Nat
  submitOk : Nat → Nat → Bool
  executeBlock : Nat → Nat → Nat × Nat
  ledgerCommit : Nat → Nat
  initLedger : Nat

/-- Initial configuration: `let mut block_height = 0;` with the ledger at its
genesis state and no lock held. -/
def initConfig (env : Env) : Config :=
  ⟨PC.startup, 0, 0, env.initLedger, false⟩

/-- One step of `run_executor`.  Mirrors the source: the result of
`hotshot.connect(None)` is discarded (no branch on it); each failed read
from either adapter is an immediate `return`; a block whose recomputed
hash differs from the anchored commitment is an immediate `return`;
`execute_block` and `commit` run inside the single write-lock critical
section; `contract_send` failure sleeps one second and retries the same
`(state_comm, proof)` submission. -/
def step (env : Env) (c : Config) : Config × List Event :=
  match c.pc with
  | PC.startup =>
      if env.connectRpcOk then
        if env.wsConnectOk then
          if env.subscribeLogsOk then
            (⟨PC.loopTop, c.blockHeight, c.outer, c.ledger, false⟩, [])
          else
            (⟨PC.exited, c.blockHeight, c.outer, c.ledger, false⟩,
              [Event.fatal FatalReason.logSubscribe])
        else
          (⟨PC.exited, c.blockHeight, c.outer, c.ledger, false⟩,
            [Event.fatal FatalReason.wsConnect])
      else
        (⟨PC.exited, c.blockHeight, c.outer, c.ledger, false⟩,
          [Event.fatal FatalReason.rpcConnect])
  | PC.loopTop =>
      match env.contractHeight c.outer with
      | none =>
          (⟨PC.exited, c.blockHeight, c.outer, c.ledger, false⟩,
            [Event.fatal FatalReason.heightRead])
      | some ch =>
          (⟨PC.heightLoop c.blockHeight ch, c.blockHeight, c.outer, c.ledger, false⟩, [])
  | PC.heightLoop i ch =>
      if i < ch then
        match env.commitments i with
        | none =>
            (⟨PC.exited, c.blockHeight, c.outer, c.ledger, false⟩,
              [Event.fatal (FatalReason.commitmentRead i)])
        | some raw =>
          match env.deserializeHash raw with
          | none =>
              (⟨PC.exited, c.blockHeight, c.outer, c.ledger, false⟩,
                [Event.fatal (FatalReason.commitmentDeserialize i)])
          | some bc =>
            match env.getBlock i with
            | none =>
                (⟨PC.exited, c.blockHeight, c.outer, c.ledger, false⟩,
                  [Event.fatal (FatalReason.blockFetch i)])
            | some b =>
              if env.blockCommit b = bc then
                (⟨PC.lockAcq i ch b, c.blockHeight, c.outer, c.ledger, false⟩, [])
              else
                (⟨PC.exited, c.blockHeight, c.outer, c.ledger, false⟩,
                  [Event.fatal (FatalReason.hashMismatch i)])
      else
        (⟨PC.awaitEvent ch, c.blockHeight, c.outer, c.ledger, false⟩, [])
  | PC.lockAcq i ch b =>
      (⟨PC.critical i ch b, c.blockHeight, c.outer, c.ledger, true⟩, [])
  | PC.critical i ch b =>
      (⟨PC.submitting i ch (env.ledgerCommit (env.executeBlock c.ledger b).1)
          (env.executeBlock c.ledger b).2 0,
        c.blockHeight, c.outer, (env.executeBlock c.ledger b).1, false⟩,
        [Event.applied i])
  | PC.submitting i ch sc pf k =>
      if env.submitOk i k then
        (⟨PC.heightLoop (i + 1) ch, c.blockHeight, c.outer, c.ledger, false⟩,
          [Event.submitAttempt i k sc pf, Event.submitSuccess i])
      else
        (⟨PC.submitting i ch sc pf (k + 1), c.blockHeight, c.outer, c.ledger, false⟩,
          [Event.submitAttempt i k sc pf, Event.sleepSec 1])
  | PC.awaitEvent ch =>
      (⟨PC.loopTop, ch, c.outer + 1, c.ledger, false⟩, [])
  | PC.exited => (c, [])

/-- Run the executor for `n` steps, returning the final configuration and
the accumulated event trace. -/
def run (env : Env) : Nat → Config × List Event
  | 0 => (initConfig env, [])
  | n + 1 =>
      ((step env (run env n).1).1, (run env n).2 ++ (step env (run env n).1).2)

/-- The ledger obtained by applying the fetched blocks for heights
`0, 1, ..., m-1` in order to the genesis ledger (the reference sequential
fold; heights whose block is unavailable are skipped, which never happens
on a reachable execution path). -/
def ledgerUpTo (env : Env) : Nat → Nat
  | 0 => env.initLedger
  | m + 1 =>
      match env.getBlock m with
      | some b => (env.executeBlock (ledgerUpTo env m) b).1
      | none => ledgerUpTo env m

/-- The anchored height recorded on the L1 contract never decreases across
successive reads (the contract only appends blocks). -/
def HeightMono (env : Env) : Prop :=
  ∀ k₁ k₂ h₁ h₂, k₁ ≤ k₂ → env.contractHeight k₁ = some h₁ →
    env.contractHeight k₂ = some h₂ → h₁ ≤ h₂

/-- The environment delivers, for height `i`, a readable anchored commitment
and a fetchable block whose recomputed hash differs from that commitment. -/
def MismatchAt (env : Env) (i : Nat) : Prop :=
  ∃ raw bc b, env.commitments i = some raw ∧ env.deserializeHash raw = some bc ∧
    env.getBlock i = some b ∧ env.blockCommit b ≠ bc

/-- The raw commitment word read from the contract for height `i` fails to
deserialize as a block hash. -/
def DeserFailAt (env : Env) (i : Nat) : Prop :=
  ∃ raw, env.commitments i = some raw ∧ env.deserializeHash raw = none

/-- Clauses of the executor invariant that additionally assume the anchored
height is non-decreasing across reads (`HeightMono`).  `A` is the number of
distinct heights applied so far, `S` the number of heights whose submission
has succeeded. -/
structure MonoAt (env : Env) (c : Config) (t : List Event) (A S : Nat) : Prop where
  ledgerTrack : c.ledger = ledgerUpTo env A
  loopTopM : c.pc = PC.loopTop →
    c.blockHeight = A ∧
      ((c.outer = 0 ∧ A = 0) ∨ ∃ k, k < c.outer ∧ env.contractHeight k = some c.blockHeight)
  heightLoopM : ∀ i ch, c.pc = PC.heightLoop i ch →
    i = A ∧ i ≤ ch ∧ env.contractHeight c.outer = some ch
  lockAcqM : ∀ i ch b, c.pc = PC.lockAcq i ch b →
    i = A ∧ env.contractHeight c.outer = some ch ∧ env.getBlock i = some b
  criticalM : ∀ i ch b, c.pc = PC.critical i ch b →
    i = A ∧ env.contractHeight c.outer = some ch ∧ env.getBlock i = some b
  submittingM : ∀ i ch sc pf k, c.pc = PC.submitting i ch sc pf k →
    A = i + 1 ∧ S = i ∧ env.contractHeight c.outer = some ch ∧
      sc = env.ledgerCommit (ledgerUpTo env (i + 1))
  awaitM : ∀ ch, c.pc = PC.awaitEvent ch → A = ch ∧ env.contractHeight c.outer = some ch
  attemptSc : ∀ m k sc pf, Event.submitAttempt m k sc pf ∈ t →
    sc = env.ledgerCommit (ledgerUpTo env (m + 1))

/-- The executor invariant.  The trace contains exactly the block
applications for heights below `A` and the submission successes for heights
below `S`, submission attempts only concern applied heights, the write lock
is held exactly inside the `execute_block`/`commit` critical section, and
the program point is consistent with the progress counters. -/
structure InvAt (env : Env) (c : Config) (t : List Event) (A S : Nat) : Prop where
  appliedMem : ∀ m, Event.applied m ∈ t ↔ m < A
  successMem : ∀ m, Event.submitSuccess m ∈ t ↔ m < S
  attemptMem : ∀ m k sc pf, Event.submitAttempt m k sc pf ∈ t → m < A
  sLeA : S ≤ A
  aLeS1 : A ≤ S + 1
  lockChar : c.lockHeld = true ↔ ∃ i ch b, c.pc = PC.critical i ch b
  startupAS : c.pc = PC.startup → A = 0 ∧ S = 0 ∧ c.blockHeight = 0 ∧ c.outer = 0
  loopTopAS : c.pc = PC.loopTop → S = A ∧ c.blockHeight ≤ A
  heightLoopAS : ∀ i ch, c.pc = PC.heightLoop i ch → S = A ∧ i ≤ A
  lockAcqAS : ∀ i ch b, c.pc = PC.lockAcq i ch b → S = A ∧ i ≤ A ∧ i < ch
  criticalAS : ∀ i ch b, c.pc = PC.critical i ch b → S = A ∧ i ≤ A ∧ i < ch
  submittingAS : ∀ i ch sc pf k, c.pc = PC.submitting i ch sc pf k →
    i < A ∧ i < ch ∧ (S = A ∨ (S = i ∧ A = i + 1))
  awaitAS : ∀ ch, c.pc = PC.awaitEvent ch → S = A ∧ ch ≤ A
  monoPart : HeightMono env → MonoAt env c t A S

/-- Test environment: two anchored blocks, all adapter calls succeed, every
submission succeeds.  Raw commitment words are 5, they deserialize to the
hash 7, every block has content 3 and hash 7, executing a block adds its
content to the ledger and yields proof 99, the ledger commitment is the
ledger value itself. -/
def okEnv : Env :=
  ⟨true, true, true, true, fun _ => some 2, fun _ => some 5, fun _ => some 7,
   fun _ => some 3, fun _ => 7, fun _ _ => true, fun l b => (l + b, 99), fun l => l, 0⟩

/-- Like `okEnv` but with a single anchored block, so the executor reaches
the notification wait and the next outer iteration. -/
def monoEnv : Env :=
  ⟨true, true, true, true, fun _ => some 1, fun _ => some 5, fun _ => some 7,
   fun _ => some 3, fun _ => 7, fun _ _ => true, fun l b => (l + b, 99), fun l => l, 0⟩

/-- Like `monoEnv` but the recomputed block hash (3) differs from the
anchored commitment hash (7). -/
def mismatchEnv : Env :=
  ⟨true, true, true, true, fun _ => some 2, fun _ => some 5, fun _ => some 7,
   fun _ => some 3, fun b => b, fun _ _ => true, fun l b => (l + b, 99), fun l => l, 0⟩

/-- Like `monoEnv` but the anchored commitment word never deserializes. -/
def deserFailEnv : Env :=
  ⟨true, true, true, true, fun _ => some 2, fun _ => some 5, fun _ => none,
   fun _ => some 3, fun _ => 7, fun _ _ => true, fun l b => (l + b, 99), fun l => l, 0⟩

/-- Like `monoEnv` but every submission attempt fails. -/
def retryEnv : Env :=
  ⟨true, true, true, true, fun _ => some 1, fun _ => some 5, fun _ => some 7,
   fun _ => some 3, fun _ => 7, fun _ _ => false, fun l b => (l + b, 99), fun l => l, 0⟩

/-- Like `monoEnv` but the block-source connection reports failure (which
the source discards). -/
def noHotshotEnv : Env :=
  ⟨false, true, true, true, fun _ => some 1, fun _ => some 5, fun _ => some 7,
   fun _ => some 3, fun _ => 7, fun _ _ => true, fun l b => (l + b, 99), fun l => l, 0⟩

/-- Like `monoEnv` but the L1 RPC connection fails. -/
def rpcFailEnv : Env :=
  ⟨true, false, true, true, fun _ => some 1, fun _ => some 5, fun _ => some 7,
   fun _ => some 3, fun _ => 7, fun _ _ => true, fun l b => (l + b, 99), fun l => l, 0⟩

/-- Like `monoEnv` but the L1 websocket connection fails. -/
def wsFailEnv : Env :=
  ⟨true, true, false, true, fun _ => some 1, fun _ => some 5, fun _ => some 7,
   fun _ => some 3, fun _ => 7, fun _ _ => true, fun l b => (l + b, 99), fun l => l, 0⟩

/-- Like `monoEnv` but the L1 log subscription fails. -/
def subFailEnv : Env :=
  ⟨true, true, true, false, fun _ => some 1, fun _ => some 5, fun _ => some 7,
   fun _ => some 3, fun _ => 7, fun _ _ => true, fun l b => (l + b, 99), fun l => l, 0⟩

/-- Like `monoEnv` but the contract height read fails. -/
def heightFailEnv : Env :=
  ⟨true, true, true, true, fun _ => none, fun _ => some 5, fun _ => some 7,
   fun _ => some 3, fun _ => 7, fun _ _ => true, fun l b => (l + b, 99), fun l => l, 0⟩

/-- Like `monoEnv` but the per-height commitment read fails. -/
def commFailEnv : Env :=
  ⟨true, true, true, true, fun _ => some 1, fun _ => none, fun _ => some 7,
   fun _ => some 3, fun _ => 7, fun _ _ => true, fun l b => (l + b, 99), fun l => l, 0⟩

/-- Like `monoEnv` but the block fetch fails. -/
def blockFailEnv : Env :=
  ⟨true, true, true, true, fun _ => some 1, fun _ => some 5, fun _ => some 7,
   fun _ => none, fun _ => 7, fun _ _ => true, fun l b => (l + b, 99), fun l => l, 0⟩

/-- The spec claim that any failure to establish connectivity to the Block
Source Adapter or the Anchor Contract Adapter at startup makes the executor
exit immediately. -/
def claimC4Startup : Prop :=
  ∀ env : Env,
    (env.hotshotConnectOk = false ∨ env.connectRpcOk = false ∨ env.wsConnectOk = false ∨
      env.subscribeLogsOk = false) →
    (run env 1).1.pc = PC.exited

/-- The spec claim that at every point the tracked `block_height` variable
equals one past the most recently successfully submitted height (heights
below it are exactly the successfully submitted ones). -/
def claimC5Tracked : Prop :=
  ∀ (env : Env) (n m : Nat),
    Event.submitSuccess m ∈ (run env n).2 ↔ m < (run env n).1.blockHeight

/-- Result of an HTTP route handler as seen by the client: a successful
response, an error response carrying a status code and a reason message, or
a handler panic (from `.expect`), which is not a client-facing error. -/
inductive RouteOutcome (α : Type) where
  | ok (a : α)
  | clientError (status : Nat) (message : String)
  | panicked (message : String)
deriving DecidableEq, Repr

/-- Embedding of the `balance` route of `serve` in `src/api.rs`: the address
path parameter is parsed (`parseAddress` models
`address_str.parse::<Address>()`); on failure the handler returns a
`BadRequest` (status 400) error with an explicit reason string, on success
it returns the balance. -/
def balanceHandler (parseAddress : String → Option Nat) (getBalance : Nat → Nat)
    (addressStr : String) : RouteOutcome Nat :=
  match parseAddress addressStr with
  | none =>
      RouteOutcome.clientError 400
        "Malformed address. Ensure that the address is valid hex encoded Ethereum address."
  | some a => RouteOutcome.ok (getBalance a)

/-- Embedding of the `submit` route of `serve` in `src/api.rs`: the request
body is deserialized as a `SignedTransaction` (`body = none` models a
malformed payload); the source unwraps this with
`.expect("serialization failed")`, i.e. it panics rather than returning an
error response.  A decoded transaction is forwarded to the sequencer
(`forward`), whose error, if any, propagates as a server error response. -/
def submitHandler (body : Option Nat) (forward : Nat → Option (Nat × String)) :
    RouteOutcome Unit :=
  match body with
  | none => RouteOutcome.panicked "serialization failed"
  | some tx =>
    match forward tx with
    | none => RouteOutcome.ok ()
    | some e => RouteOutcome.clientError e.1 e.2

/-- The spec claim that a malformed address and a malformed signed payload
both yield a client-facing error response with an explicit reason string. -/
def claimC7Errors : Prop :=
  ∀ (parseAddress : String → Option Nat) (getBalance : Nat → Nat) (s : String)
    (body : Option Nat) (forward : Nat → Option (Nat × String)),
    (parseAddress s = none →
      ∃ st msg, balanceHandler parseAddress getBalance s = RouteOutcome.clientError st msg ∧
        msg ≠ "") ∧
    (body = none →
      ∃ st msg, submitHandler body forward = RouteOutcome.clientError st msg ∧ msg ≠ "")

/-- The invariant transfers to an exit configuration that appends a single
fatal event to the trace and leaves the ledger untouched. -/
theorem invAt_exitFatal (env : Env) (t : List Event) (A S bh out led : Nat) (r : FatalReason)
    (h1 : ∀ m, Event.applied m ∈ t ↔ m < A)
    (h2 : ∀ m, Event.submitSuccess m ∈ t ↔ m < S)
    (h3 : ∀ m k sc pf, Event.submitAttempt m k sc pf ∈ t → m < A)
    (h4 : S ≤ A) (h5 : A ≤ S + 1)
    (h6 : HeightMono env → led = ledgerUpTo env A)
    (h7 : HeightMono env → ∀ m k sc pf, Event.submitAttempt m k sc pf ∈ t →
      sc = env.ledgerCommit (ledgerUpTo env (m + 1))) :
    InvAt env ⟨PC.exited, bh, out, led, false⟩ (t ++ [Event.fatal r]) A S := by
  refine ⟨?_, ?_, ?_, h4, h5, by simp, by simp, by simp, by simp, by simp, by simp,
    by simp, by simp, ?_⟩
  · intro m; simp [h1]
  · intro m; simp [h2]
  · intro m k sc pf hmem
    simp at hmem
    exact h3 m k sc pf hmem
  · intro hm
    refine ⟨h6 hm, by simp, by simp, by simp, by simp, by simp, by simp, ?_⟩
    intro m k sc pf hmem
    simp at hmem
    exact h7 hm m k sc pf hmem

/-- One-step preservation of the executor invariant. -/
theorem inv_step (env : Env) (c : Config) (t : List Event) (A S : Nat)
    (ih : InvAt env c t A S) :
    ∃ B T, InvAt env (step env c).1 (t ++ (step env c).2) B T := by
  obtain ⟨pc, bh, out, led, lk⟩ := c
  cases pc with
  | startup =>
    obtain ⟨hA, hS, hbh, hout⟩ := ih.startupAS rfl
    replace hbh : bh = 0 := hbh
    replace hout : out = 0 := hout
    subst hA hS hbh hout
    by_cases hr : env.connectRpcOk = true
    · by_cases hw : env.wsConnectOk = true
      · by_cases hsub : env.subscribeLogsOk = true
        · refine ⟨0, 0, ?_⟩
          simp only [step, hr, hw, hsub, if_true, List.append_nil]
          refine ⟨ih.appliedMem, ih.successMem, ih.attemptMem, ih.sLeA, ih.aLeS1,
            by simp, by simp, by simp, by simp, by simp, by simp, by simp, by simp, ?_⟩
          intro hm
          exact ⟨(ih.monoPart hm).ledgerTrack, by simp, by simp, by simp, by simp,
            by simp, by simp, (ih.monoPart hm).attemptSc⟩
        · refine ⟨0, 0, ?_⟩
          simp only [step, hr, hw, hsub, if_true, if_false, Bool.false_eq_true]
          exact invAt_exitFatal env t 0 0 0 0 led FatalReason.logSubscribe ih.appliedMem
            ih.successMem ih.attemptMem ih.sLeA ih.aLeS1
            (fun hm => (ih.monoPart hm).ledgerTrack) (fun hm => (ih.monoPart hm).attemptSc)
      · refine ⟨0, 0, ?_⟩
        simp only [step, hr, hw, if_true, if_false, Bool.false_eq_true]
        exact invAt_exitFatal env t 0 0 0 0 led FatalReason.wsConnect ih.appliedMem
          ih.successMem ih.attemptMem ih.sLeA ih.aLeS1
          (fun hm => (ih.monoPart hm).ledgerTrack) (fun hm => (ih.monoPart hm).attemptSc)
    · refine ⟨0, 0, ?_⟩
      simp only [step, hr, if_false, Bool.false_eq_true]
      exact invAt_exitFatal env t 0 0 0 0 led FatalReason.rpcConnect ih.appliedMem
        ih.successMem ih.attemptMem ih.sLeA ih.aLeS1
        (fun hm => (ih.monoPart hm).ledgerTrack) (fun hm => (ih.monoPart hm).attemptSc)
  | loopTop =>
    obtain ⟨hSA, hbhA⟩ := ih.loopTopAS rfl
    replace hbhA : bh ≤ A := hbhA
    cases hch : env.contractHeight out with
    | none =>
      refine ⟨A, S, ?_⟩
      simp only [step, hch]
      exact invAt_exitFatal env t A S bh out led FatalReason.heightRead ih.appliedMem
        ih.successMem ih.attemptMem ih.sLeA ih.aLeS1
        (fun hm => (ih.monoPart hm).ledgerTrack) (fun hm => (ih.monoPart hm).attemptSc)
    | some ch =>
      refine ⟨A, S, ?_⟩
      simp only [step, hch, List.append_nil]
      refine ⟨ih.appliedMem, ih.successMem, ih.attemptMem, ih.sLeA, ih.aLeS1,
        by simp, by simp, by simp, ?_, by simp, by simp, by simp, by simp, ?_⟩
      · intro i ch2 h
        simp at h
        obtain ⟨h1, h2⟩ := h
        subst h1
        exact ⟨hSA, hbhA⟩
      · intro hm
        obtain ⟨hbhA2, hdisj⟩ := (ih.monoPart hm).loopTopM rfl
        replace hbhA2 : bh = A := hbhA2
        refine ⟨(ih.monoPart hm).ledgerTrack, by simp, ?_, by simp, by simp, by simp,
          by simp, (ih.monoPart hm).attemptSc⟩
        intro i ch2 h
        simp at h
        obtain ⟨h1, h2⟩ := h
        subst h1
        subst h2
        refine ⟨hbhA2, ?_, hch⟩
        rcases hdisj with ⟨h0, hA0⟩ | ⟨k, hk, hck⟩
        · omega
        · replace hck : env.contractHeight k = some bh := hck
          replace hk : k < out := hk
          exact hm k out bh ch (Nat.le_of_lt hk) hck hch
  | heightLoop i ch =>
    obtain ⟨hSA, hiA⟩ := ih.heightLoopAS i ch rfl
    by_cases hlt : i < ch
    · cases hcm : env.commitments i with
      | none =>
        refine ⟨A, S, ?_⟩
        simp only [step, hlt, if_true, hcm]
        exact invAt_exitFatal env t A S bh out led (FatalReason.commitmentRead i) ih.appliedMem
          ih.successMem ih.attemptMem ih.sLeA ih.aLeS1
          (fun hm => (ih.monoPart hm).ledgerTrack) (fun hm => (ih.monoPart hm).attemptSc)
      | some raw =>
        cases hds : env.deserializeHash raw with
        | none =>
          refine ⟨A, S, ?_⟩
          simp only [step, hlt, if_true, hcm, hds]
          exact invAt_exitFatal env t A S bh out led (FatalReason.commitmentDeserialize i)
            ih.appliedMem ih.successMem ih.attemptMem ih.sLeA ih.aLeS1
            (fun hm => (ih.monoPart hm).ledgerTrack) (fun hm => (ih.monoPart hm).attemptSc)
        | some bc =>
          cases hgb : env.getBlock i with
          | none =>
            refine ⟨A, S, ?_⟩
            simp only [step, hlt, if_true, hcm, hds, hgb]
            exact invAt_exitFatal env t A S bh out led (FatalReason.blockFetch i)
              ih.appliedMem ih.successMem ih.attemptMem ih.sLeA ih.aLeS1
              (fun hm => (ih.monoPart hm).ledgerTrack) (fun hm => (ih.monoPart hm).attemptSc)
          | some b =>
            by_cases hbc : env.blockCommit b = bc
            · refine ⟨A, S, ?_⟩
              simp only [step, hlt, if_true, hcm, hds, hgb, hbc, List.append_nil]
              refine ⟨ih.appliedMem, ih.successMem, ih.attemptMem, ih.sLeA, ih.aLeS1,
                by simp, by simp, by simp, by simp, ?_, by simp, by simp, by simp, ?_⟩
              · intro i2 ch2 b2 h
                simp at h
                obtain ⟨h1, h2, h3⟩ := h
                subst h1
                subst h2
                exact ⟨hSA, hiA, hlt⟩
              · intro hm
                obtain ⟨hiA2, hle, hct⟩ := (ih.monoPart hm).heightLoopM i ch rfl
                refine ⟨(ih.monoPart hm).ledgerTrack, by simp, by simp, ?_, by simp,
                  by simp, by simp, (ih.monoPart hm).attemptSc⟩
                intro i2 ch2 b2 h
                simp at h
                obtain ⟨h1, h2, h3⟩ := h
                subst h1
                subst h2
                subst h3
                exact ⟨hiA2, hct, hgb⟩
            · refine ⟨A, S, ?_⟩
              simp only [step, hlt, if_true, hcm, hds, hgb, hbc, if_false]
              exact invAt_exitFatal env t A S bh out led (FatalReason.hashMismatch i)
                ih.appliedMem ih.successMem ih.attemptMem ih.sLeA ih.aLeS1
                (fun hm => (ih.monoPart hm).ledgerTrack) (fun hm => (ih.monoPart hm).attemptSc)
    · refine ⟨A, S, ?_⟩
      simp only [step, hlt, if_false, List.append_nil]
      refine ⟨ih.appliedMem, ih.successMem, ih.attemptMem, ih.sLeA, ih.aLeS1,
        by simp, by simp, by simp, by simp, by simp, by simp, by simp, ?_, ?_⟩
      · intro ch2 h
        simp at h
        subst h
        exact ⟨hSA, le_trans (Nat.le_of_not_lt hlt) hiA⟩
      · intro hm
        obtain ⟨hiA2, hle, hct⟩ := (ih.monoPart hm).heightLoopM i ch rfl
        refine ⟨(ih.monoPart hm).ledgerTrack, by simp, by simp, by simp, by simp,
          by simp, ?_, (ih.monoPart hm).attemptSc⟩
        intro ch2 h
        simp at h
        subst h
        have : i = ch := Nat.le_antisymm hle (Nat.le_of_not_lt hlt)
        exact ⟨by omega, hct⟩
  | lockAcq i ch b =>
    obtain ⟨hSA, hiA, hich⟩ := ih.lockAcqAS i ch b rfl
    refine ⟨A, S, ?_⟩
    simp only [step, List.append_nil]
    refine ⟨ih.appliedMem, ih.successMem, ih.attemptMem, ih.sLeA, ih.aLeS1, ?_,
      by simp, by simp, by simp, by simp, ?_, by simp, by simp, ?_⟩
    · simp
    · intro i2 ch2 b2 h
      simp at h
      obtain ⟨h1, h2, h3⟩ := h
      subst h1
      subst h2
      exact ⟨hSA, hiA, hich⟩
    · intro hm
      obtain ⟨hiA2, hct, hgb⟩ := (ih.monoPart hm).lockAcqM i ch b rfl
      refine ⟨(ih.monoPart hm).ledgerTrack, by simp, by simp, by simp, ?_, by simp,
        by simp, (ih.monoPart hm).attemptSc⟩
      intro i2 ch2 b2 h
      simp at h
      obtain ⟨h1, h2, h3⟩ := h
      subst h1
      subst h2
      subst h3
      exact ⟨hiA2, hct, hgb⟩
  | critical i ch b =>
    obtain ⟨hSA, hiA, hich⟩ := ih.criticalAS i ch b rfl
    rcases Nat.lt_or_ge i A with hlt | hge
    · refine ⟨A, S, ?_⟩
      simp only [step]
      refine ⟨?_, ?_, ?_, ih.sLeA, ih.aLeS1, by simp, by simp, by simp, by simp,
        by simp, by simp, ?_, by simp, ?_⟩
      · intro m
        simp [ih.appliedMem]
        omega
      · intro m
        simp [ih.successMem]
      · intro m k sc pf h
        simp at h
        exact ih.attemptMem m k sc pf h
      · intro i2 ch2 sc2 pf2 k2 h
        simp at h
        obtain ⟨h1, h2, h3, h4, h5⟩ := h
        subst h1
        subst h2
        exact ⟨hlt, hich, Or.inl hSA⟩
      · intro hm
        exact absurd ((ih.monoPart hm).criticalM i ch b rfl).1 (by omega)
    · have hiA2 : i = A := Nat.le_antisymm hiA hge
      subst hiA2
      refine ⟨i + 1, S, ?_⟩
      simp only [step]
      refine ⟨?_, ?_, ?_, by omega, by omega, by simp, by simp, by simp, by simp,
        by simp, by simp, ?_, by simp, ?_⟩
      · intro m
        simp [ih.appliedMem]
        omega
      · intro m
        simp [ih.successMem]
      · intro m k sc pf h
        simp at h
        exact Nat.lt_succ_of_lt (ih.attemptMem m k sc pf h)
      · intro i2 ch2 sc2 pf2 k2 h
        simp at h
        obtain ⟨h1, h2, h3, h4, h5⟩ := h
        subst h1
        subst h2
        exact ⟨Nat.lt_succ_self i, hich, Or.inr ⟨hSA, rfl⟩⟩
      · intro hm
        obtain ⟨hiA3, hct, hgb⟩ := (ih.monoPart hm).criticalM i ch b rfl
        have hled : led = ledgerUpTo env i := (ih.monoPart hm).ledgerTrack
        refine ⟨?_, by simp, by simp, by simp, by simp, ?_, by simp, ?_⟩
        · simp only [ledgerUpTo, hgb, hled]
        · intro i2 ch2 sc2 pf2 k2 h
          simp at h
          obtain ⟨h1, h2, h3, h4, h5⟩ := h
          subst h1
          subst h2
          subst h3
          refine ⟨rfl, hSA, hct, ?_⟩
          simp only [ledgerUpTo, hgb, hled]
        · intro m k2 sc2 pf2 h
          simp at h
          exact (ih.monoPart hm).attemptSc m k2 sc2 pf2 h
  | submitting i ch sc pf k =>
    obtain ⟨hiA, hich, hdisj⟩ := ih.submittingAS i ch sc pf k rfl
    by_cases hok : env.submitOk i k = true
    · rcases hdisj with hSA | ⟨hSi, hAi⟩
      · refine ⟨A, S, ?_⟩
        simp only [step, hok, if_true]
        refine ⟨?_, ?_, ?_, ih.sLeA, ih.aLeS1, by simp, by simp, by simp, ?_, by simp,
          by simp, by simp, by simp, ?_⟩
        · intro m
          simp [ih.appliedMem]
        · intro m
          simp [ih.successMem]
          omega
        · intro m k2 sc2 pf2 h
          simp at h
          rcases h with h | ⟨h1, h2, h3, h4⟩
          · exact ih.attemptMem m k2 sc2 pf2 h
          · subst h1
            exact hiA
        · intro i2 ch2 h
          simp at h
          obtain ⟨h1, h2⟩ := h
          subst h1
          exact ⟨hSA, by omega⟩
        · intro hm
          exfalso
          obtain ⟨hA1, hS1, _, _⟩ := (ih.monoPart hm).submittingM i ch sc pf k rfl
          omega
      · refine ⟨A, S + 1, ?_⟩
        simp only [step, hok, if_true]
        refine ⟨?_, ?_, ?_, by omega, by omega, by simp, by simp, by simp, ?_, by simp,
          by simp, by simp, by simp, ?_⟩
        · intro m
          simp [ih.appliedMem]
        · intro m
          simp [ih.successMem]
          omega
        · intro m k2 sc2 pf2 h
          simp at h
          rcases h with h | ⟨h1, h2, h3, h4⟩
          · exact ih.attemptMem m k2 sc2 pf2 h
          · subst h1
            exact hiA
        · intro i2 ch2 h
          simp at h
          obtain ⟨h1, h2⟩ := h
          subst h1
          exact ⟨by omega, by omega⟩
        · intro hm
          obtain ⟨hA1, hS1, hct, hsc⟩ := (ih.monoPart hm).submittingM i ch sc pf k rfl
          refine ⟨(ih.monoPart hm).ledgerTrack, by simp, ?_, by simp, by simp, by simp,
            by simp, ?_⟩
          · intro i2 ch2 h
            simp at h
            obtain ⟨h1, h2⟩ := h
            subst h1
            subst h2
            exact ⟨by omega, by omega, hct⟩
          · intro m k2 sc2 pf2 h
            simp at h
            rcases h with h | ⟨h1, h2, h3, h4⟩
            · exact (ih.monoPart hm).attemptSc m k2 sc2 pf2 h
            · subst h1
              subst h3
              exact hsc
    · refine ⟨A, S, ?_⟩
      simp only [step, hok, if_false]
      refine ⟨?_, ?_, ?_, ih.sLeA, ih.aLeS1, by simp, by simp, by simp, by simp, by simp,
        by simp, ?_, by simp, ?_⟩
      · intro m
        simp [ih.appliedMem]
      · intro m
        simp [ih.successMem]
      · intro m k2 sc2 pf2 h
        simp at h
        rcases h with h | ⟨h1, h2, h3, h4⟩
        · exact ih.attemptMem m k2 sc2 pf2 h
        · subst h1
          exact hiA
      · intro i2 ch2 sc2 pf2 k2 h
        simp at h
        obtain ⟨h1, h2, h3, h4, h5⟩ := h
        subst h1
        subst h2
        exact ⟨hiA, hich, hdisj⟩
      · intro hm
        obtain ⟨hA1, hS1, hct, hsc⟩ := (ih.monoPart hm).submittingM i ch sc pf k rfl
        refine ⟨(ih.monoPart hm).ledgerTrack, by simp, by simp, by simp, by simp, ?_,
          by simp, ?_⟩
        · intro i2 ch2 sc2 pf2 k2 h
          simp at h
          obtain ⟨h1, h2, h3, h4, h5⟩ := h
          subst h1
          subst h2
          subst h3
          exact ⟨hA1, hS1, hct, hsc⟩
        · intro m k2 sc2 pf2 h
          simp at h
          rcases h with h | ⟨h1, h2, h3, h4⟩
          · exact (ih.monoPart hm).attemptSc m k2 sc2 pf2 h
          · subst h1
            subst h3
            exact hsc
  | awaitEvent ch =>
    obtain ⟨hSA, hchA⟩ := ih.awaitAS ch rfl
    refine ⟨A, S, ?_⟩
    simp only [step, List.append_nil]
    refine ⟨ih.appliedMem, ih.successMem, ih.attemptMem, ih.sLeA, ih.aLeS1, by simp,
      by simp, ?_, by simp, by simp, by simp, by simp, by simp, ?_⟩
    · intro h
      exact ⟨hSA, hchA⟩
    · intro hm
      obtain ⟨hchA2, hct⟩ := (ih.monoPart hm).awaitM ch rfl
      refine ⟨(ih.monoPart hm).ledgerTrack, ?_, by simp, by simp, by simp, by simp,
        by simp, (ih.monoPart hm).attemptSc⟩
      intro h
      exact ⟨hchA2.symm, Or.inr ⟨out, Nat.lt_succ_self out, hct⟩⟩
  | exited =>
    refine ⟨A, S, ?_⟩
    simpa [step] using ih

/-- The executor invariant holds after any number of steps. -/
theorem inv_run (env : Env) : ∀ n, ∃ A S, InvAt env (run env n).1 (run env n).2 A S := by
  intro n
  induction n with
  | zero =>
    refine ⟨0, 0, ⟨?_, ?_, ?_, Nat.le_refl 0, Nat.le_succ 0, ?_, ?_, ?_, ?_, ?_, ?_, ?_,
      ?_, ?_⟩⟩
    · simp [run]
    · simp [run]
    · simp [run]
    · simp [run, initConfig]
    · intro _
      exact ⟨rfl, rfl, rfl, rfl⟩
    · simp [run, initConfig]
    · simp [run, initConfig]
    · simp [run, initConfig]
    · simp [run, initConfig]
    · simp [run, initConfig]
    · simp [run, initConfig]
    · intro hm
      refine ⟨rfl, ?_, ?_, ?_, ?_, ?_, ?_, ?_⟩ <;> simp [run, initConfig]
  | succ n ihn =>
    obtain ⟨A, S, ih⟩ := ihn
    have h := inv_step env (run env n).1 (run env n).2 A S ih
    simpa [run] using h

/-- If the fetch-and-verify phase for height `i` can never succeed (no
combination of a readable commitment, a deserialized hash and a fetched
block passes the hash check), then no run ever executes the block at height
`i` or reaches its critical section. -/
theorem no_apply_of_stuck (env : Env) (i : Nat)
    (hstuck : ∀ raw bc b, env.commitments i = some raw →
      env.deserializeHash raw = some bc → env.getBlock i = some b →
      env.blockCommit b ≠ bc) :
    ∀ n, Event.applied i ∉ (run env n).2 ∧
      (∀ ch b, (run env n).1.pc ≠ PC.lockAcq i ch b) ∧
      (∀ ch b, (run env n).1.pc ≠ PC.critical i ch b) := by
  intro n
  induction n with
  | zero => simp [run, initConfig]
  | succ n ihn =>
    obtain ⟨hmem, hla, hcr⟩ := ihn
    simp only [run]
    rcases hc : (run env n).1 with ⟨pc, bh, out, led, lk⟩
    rw [hc] at hla hcr
    cases pc with
    | startup =>
      by_cases h1 : env.connectRpcOk = true <;> by_cases h2 : env.wsConnectOk = true <;>
        by_cases h3 : env.subscribeLogsOk = true <;>
        exact ⟨by simp [step, h1, h2, h3, hmem], by simp [step, h1, h2, h3],
          by simp [step, h1, h2, h3]⟩
    | loopTop =>
      cases hch : env.contractHeight out with
      | none => exact ⟨by simp [step, hch, hmem], by simp [step, hch], by simp [step, hch]⟩
      | some ch => exact ⟨by simp [step, hch, hmem], by simp [step, hch], by simp [step, hch]⟩
    | heightLoop j ch =>
      by_cases hlt : j < ch
      · cases hcm : env.commitments j with
        | none =>
          exact ⟨by simp [step, hlt, hcm, hmem], by simp [step, hlt, hcm],
            by simp [step, hlt, hcm]⟩
        | some raw =>
          cases hds : env.deserializeHash raw with
          | none =>
            exact ⟨by simp [step, hlt, hcm, hds, hmem], by simp [step, hlt, hcm, hds],
              by simp [step, hlt, hcm, hds]⟩
          | some bc =>
            cases hgb : env.getBlock j with
            | none =>
              exact ⟨by simp [step, hlt, hcm, hds, hgb, hmem],
                by simp [step, hlt, hcm, hds, hgb], by simp [step, hlt, hcm, hds, hgb]⟩
            | some b =>
              by_cases hbc : env.blockCommit b = bc
              · refine ⟨by simp [step, hlt, hcm, hds, hgb, hbc, hmem], ?_,
                  by simp [step, hlt, hcm, hds, hgb, hbc]⟩
                intro ch2 b2 h
                simp [step, hlt, hcm, hds, hgb, hbc] at h
                obtain ⟨h1, h2, h3⟩ := h
                subst h1
                exact absurd hbc (hstuck raw bc b hcm hds hgb)
              · exact ⟨by simp [step, hlt, hcm, hds, hgb, hbc, hmem],
                  by simp [step, hlt, hcm, hds, hgb, hbc],
                  by simp [step, hlt, hcm, hds, hgb, hbc]⟩
      · exact ⟨by simp [step, hlt, hmem], by simp [step, hlt], by simp [step, hlt]⟩
    | lockAcq j ch b =>
      refine ⟨by simp [step, hmem], by simp [step], ?_⟩
      intro ch2 b2 h
      simp [step] at h
      obtain ⟨h1, h2, h3⟩ := h
      subst h1
      exact hla ch b rfl
    | critical j ch b =>
      have hji : j ≠ i := fun h => hcr ch b (h ▸ rfl)
      refine ⟨?_, by simp [step], by simp [step]⟩
      intro h
      simp [step, hmem] at h
      exact hji h.symm
    | submitting j ch sc pf k =>
      by_cases hok : env.submitOk j k = true
      · exact ⟨by simp [step, hok, hmem], by simp [step, hok], by simp [step, hok]⟩
      · exact ⟨by simp [step, hok, hmem], by simp [step, hok], by simp [step, hok]⟩
    | awaitEvent ch =>
      exact ⟨by simp [step, hmem], by simp [step], by simp [step]⟩
    | exited =>
      exact ⟨by simp [step, hmem], by simp [step], by simp [step]⟩

/-- The anchored height of `monoEnv` (and of every environment whose
`contractHeight` is a constant) is non-decreasing across reads. -/
theorem monoEnv_mono : HeightMono monoEnv := by
  intro k1 k2 h1 h2 _ e1 e2
  simp [monoEnv] at e1 e2
  omega

/-- C1: heights are processed strictly in increasing order — the executor
never begins applying the block at height `h+1`, and never issues a
submission attempt for height `h+1`, before the submission for height `h`
has returned success (the trace contains the success for `h` whenever it
contains the application of, or an attempt for, `h+1`). -/
theorem height_ordering (env : Env) (n h : Nat) :
    (Event.applied (h + 1) ∈ (run env n).2 → Event.submitSuccess h ∈ (run env n).2) ∧
    (∀ k sc pf, Event.submitAttempt (h + 1) k sc pf ∈ (run env n).2 →
      Event.submitSuccess h ∈ (run env n).2) := by
  obtain ⟨A, S, inv⟩ := inv_run env n
  constructor
  · intro hmem
    have h1 : h + 1 < A := (inv.appliedMem (h + 1)).mp hmem
    have h2 : A ≤ S + 1 := inv.aLeS1
    exact (inv.successMem h).mpr (by omega)
  · intro k sc pf hmem
    have h1 : h + 1 < A := inv.attemptMem (h + 1) k sc pf hmem
    have h2 : A ≤ S + 1 := inv.aLeS1
    exact (inv.successMem h).mpr (by omega)

/-- Witness for C1 at a concrete run: after ten steps of `okEnv` the trace
contains `applied 1` and `submitAttempt 1 0 6 99`, and the ordering theorem
yields the success of height 0. -/
theorem height_ordering_witness :
    Event.submitSuccess 0 ∈ (run okEnv 10).2 ∧ Event.submitSuccess 0 ∈ (run okEnv 10).2 :=
  ⟨(height_ordering okEnv 10 0).1 (by decide),
   (height_ordering okEnv 10 0).2 0 6 99 (by decide)⟩

/-- C2: if the locally recomputed content hash of the fetched block at
height `i` differs from the commitment recorded by the anchor contract,
then no run ever applies the block at height `i` (no ledger mutation for
that height), and from the configuration about to process height `i` the
executor exits with a hash-mismatch fatal, leaving the ledger unchanged. -/
theorem hash_mismatch_fatal (env : Env) (i : Nat) (hm : MismatchAt env i) :
    (∀ n, Event.applied i ∉ (run env n).2) ∧
    (∀ n ch, (run env n).1.pc = PC.heightLoop i ch → i < ch →
      (run env (n + 1)).1.pc = PC.exited ∧
      (run env (n + 1)).1.ledger = (run env n).1.ledger ∧
      (run env (n + 1)).2 = (run env n).2 ++ [Event.fatal (FatalReason.hashMismatch i)]) := by
  obtain ⟨raw, bc, b, hcm, hds, hgb, hne⟩ := hm
  have hstuck : ∀ raw2 bc2 b2, env.commitments i = some raw2 →
      env.deserializeHash raw2 = some bc2 → env.getBlock i = some b2 →
      env.blockCommit b2 ≠ bc2 := by
    intro raw2 bc2 b2 e1 e2 e3
    rw [hcm] at e1
    injection e1 with e1
    subst e1
    rw [hds] at e2
    injection e2 with e2
    subst e2
    rw [hgb] at e3
    injection e3 with e3
    subst e3
    exact hne
  refine ⟨fun n => (no_apply_of_stuck env i hstuck n).1, ?_⟩
  intro n ch hpc hlt
  have hne2 : ¬ env.blockCommit b = bc := hne
  refine ⟨?_, ?_, ?_⟩ <;>
    simp [run, step, hpc, hlt, hcm, hds, hgb, hne2]

/-- Witness for C2: in `mismatchEnv` the recomputed hash 3 differs from the
anchored hash 7; height 0 is never applied, and the executor exits in the
step after reaching height 0. -/
theorem hash_mismatch_fatal_witness :
    Event.applied 0 ∉ (run mismatchEnv 3).2 ∧ (run mismatchEnv 3).1.pc = PC.exited :=
  ⟨(hash_mismatch_fatal mismatchEnv 0 ⟨5, 7, 3, rfl, rfl, rfl, by decide⟩).1 3,
   ((hash_mismatch_fatal mismatchEnv 0 ⟨5, 7, 3, rfl, rfl, rfl, by decide⟩).2 2 2 (by decide)
     (by decide)).1⟩

/-- C10: if the commitment word read from the anchor contract for height `i`
fails to deserialize as a block hash, then no run ever applies the block at
height `i`, and from the configuration about to process height `i` the
executor exits with a deserialization fatal, without retrying. -/
theorem deser_failure_fatal (env : Env) (i : Nat) (hd : DeserFailAt env i) :
    (∀ n, Event.applied i ∉ (run env n).2) ∧
    (∀ n ch, (run env n).1.pc = PC.heightLoop i ch → i < ch →
      (run env (n + 1)).1.pc = PC.exited ∧
      (run env (n + 1)).2 = (run env n).2 ++
        [Event.fatal (FatalReason.commitmentDeserialize i)]) := by
  obtain ⟨raw, hcm, hds⟩ := hd
  have hstuck : ∀ raw2 bc2 b2, env.commitments i = some raw2 →
      env.deserializeHash raw2 = some bc2 → env.getBlock i = some b2 →
      env.blockCommit b2 ≠ bc2 := by
    intro raw2 bc2 b2 e1 e2 e3
    rw [hcm] at e1
    injection e1 with e1
    subst e1
    rw [hds] at e2
    exact absurd e2 (by simp)
  refine ⟨fun n => (no_apply_of_stuck env i hstuck n).1, ?_⟩
  intro n ch hpc hlt
  refine ⟨?_, ?_⟩ <;>
    simp [run, step, hpc, hlt, hcm, hds]

/-- Witness for C10: in `deserFailEnv` the commitment word never
deserializes; height 0 is never applied and the executor exits on reaching
it. -/
theorem deser_failure_fatal_witness :
    Event.applied 0 ∉ (run deserFailEnv 3).2 ∧ (run deserFailEnv 3).1.pc = PC.exited :=
  ⟨(deser_failure_fatal deserFailEnv 0 ⟨5, rfl, rfl⟩).1 3,
   ((deser_failure_fatal deserFailEnv 0 ⟨5, rfl, rfl⟩).2 2 2 (by decide) (by decide)).1⟩

/-- C3: from a submitting configuration, a failed submission attempt sleeps
exactly one second and retries the identical `(state commitment, proof)`
submission with the attempt counter incremented; a successful attempt moves
on to the next height; and if every attempt for the height fails the
executor stays in the submitting state forever, with no maximum retry
count and no escalating backoff. -/
theorem submit_retry (env : Env) (i ch sc pf k n : Nat)
    (hpc : (run env n).1.pc = PC.submitting i ch sc pf k) :
    (env.submitOk i k = false →
      (run env (n + 1)).1.pc = PC.submitting i ch sc pf (k + 1) ∧
      (run env (n + 1)).2 = (run env n).2 ++
        [Event.submitAttempt i k sc pf, Event.sleepSec 1]) ∧
    (env.submitOk i k = true →
      (run env (n + 1)).1.pc = PC.heightLoop (i + 1) ch ∧
      (run env (n + 1)).2 = (run env n).2 ++
        [Event.submitAttempt i k sc pf, Event.submitSuccess i]) ∧
    ((∀ j, env.submitOk i j = false) →
      ∀ m, (run env (n + m)).1.pc = PC.submitting i ch sc pf (k + m)) := by
  refine ⟨?_, ?_, ?_⟩
  · intro hok
    constructor <;> simp [run, step, hpc, hok]
  · intro hok
    constructor <;> simp [run, step, hpc, hok]
  · intro hall m
    induction m with
    | zero => simpa using hpc
    | succ m ihm =>
      have heq : n + (m + 1) = (n + m) + 1 := rfl
      rw [heq]
      simp [run, step, ihm, hall (k + m)]
      omega

/-- Witness for C3: in `retryEnv` every submission fails; from the
submitting configuration reached after five steps, one step increments the
attempt counter, and four further steps leave the executor still
submitting the same commitment and proof; in `okEnv` a successful attempt
advances to the next height. -/
theorem submit_retry_witness :
    (run retryEnv 6).1.pc = PC.submitting 0 1 3 99 1 ∧
    (run retryEnv 9).1.pc = PC.submitting 0 1 3 99 4 ∧
    (run okEnv 6).1.pc = PC.heightLoop 1 2 :=
  ⟨((submit_retry retryEnv 0 1 3 99 0 5 (by decide)).1 (by decide)).1,
   (submit_retry retryEnv 0 1 3 99 0 5 (by decide)).2.2 (fun _ => rfl) 4,
   ((submit_retry okEnv 0 2 3 99 0 5 (by decide)).2.1 (by decide)).1⟩

/-- C4 counterexample: the claim that a failed block-source connection at
startup makes the executor exit immediately is false — `run_executor`
discards the result of `hotshot.connect` and keeps running (it still
applies block 0 six steps later). -/
theorem claimC4Startup_false :
    ¬ claimC4Startup ∧ noHotshotEnv.hotshotConnectOk = false ∧
    (run noHotshotEnv 1).1.pc = PC.loopTop ∧ Event.applied 0 ∈ (run noHotshotEnv 6).2 := by
  refine ⟨?_, rfl, by decide, by decide⟩
  intro hcl
  exact absurd (hcl noHotshotEnv (Or.inl rfl)) (by decide)

/-- C4 (amended): every adapter read error (contract height, per-height
commitment, block fetch) and every failure to connect to the Anchor
Contract Adapter at startup (RPC, websocket, log subscription) makes the
executor exit immediately with the corresponding fatal event, and the
exited state is absorbing (nothing is retried); the result of the
block-source connection is not checked. -/
theorem adapter_errors_fatal (env : Env) (c : Config) :
    (c.pc = PC.startup → env.connectRpcOk = false →
      (step env c).1.pc = PC.exited ∧
      (step env c).2 = [Event.fatal FatalReason.rpcConnect]) ∧
    (c.pc = PC.startup → env.connectRpcOk = true → env.wsConnectOk = false →
      (step env c).1.pc = PC.exited ∧
      (step env c).2 = [Event.fatal FatalReason.wsConnect]) ∧
    (c.pc = PC.startup → env.connectRpcOk = true → env.wsConnectOk = true →
      env.subscribeLogsOk = false →
      (step env c).1.pc = PC.exited ∧
      (step env c).2 = [Event.fatal FatalReason.logSubscribe]) ∧
    (c.pc = PC.loopTop → env.contractHeight c.outer = none →
      (step env c).1.pc = PC.exited ∧
      (step env c).2 = [Event.fatal FatalReason.heightRead]) ∧
    (∀ i ch, c.pc = PC.heightLoop i ch → i < ch → env.commitments i = none →
      (step env c).1.pc = PC.exited ∧
      (step env c).2 = [Event.fatal (FatalReason.commitmentRead i)]) ∧
    (∀ i ch raw bc, c.pc = PC.heightLoop i ch → i < ch → env.commitments i = some raw →
      env.deserializeHash raw = some bc → env.getBlock i = none →
      (step env c).1.pc = PC.exited ∧
      (step env c).2 = [Event.fatal (FatalReason.blockFetch i)]) ∧
    (c.pc = PC.exited → step env c = (c, [])) := by
  refine ⟨?_, ?_, ?_, ?_, ?_, ?_, ?_⟩
  · intro hpc h1
    constructor <;> simp [step, hpc, h1]
  · intro hpc h1 h2
    constructor <;> simp [step, hpc, h1, h2]
  · intro hpc h1 h2 h3
    constructor <;> simp [step, hpc, h1, h2, h3]
  · intro hpc h1
    constructor <;> simp [step, hpc, h1]
  · intro i ch hpc h1 h2
    constructor <;> simp [step, hpc, h1, h2]
  · intro i ch raw bc hpc h1 h2 h3 h4
    constructor <;> simp [step, hpc, h1, h2, h3, h4]
  · intro hpc
    simp [step, hpc]

/-- Witness for C4 (amended): each fatal exit at a concrete environment and
configuration. -/
theorem adapter_errors_fatal_witness :
    (step rpcFailEnv (initConfig rpcFailEnv)).1.pc = PC.exited ∧
    (step wsFailEnv (initConfig wsFailEnv)).1.pc = PC.exited ∧
    (step subFailEnv (initConfig subFailEnv)).1.pc = PC.exited ∧
    (step heightFailEnv ⟨PC.loopTop, 0, 0, 0, false⟩).1.pc = PC.exited ∧
    (step commFailEnv ⟨PC.heightLoop 0 1, 0, 0, 0, false⟩).1.pc = PC.exited ∧
    (step blockFailEnv ⟨PC.heightLoop 0 1, 0, 0, 0, false⟩).1.pc = PC.exited ∧
    step rpcFailEnv ⟨PC.exited, 0, 0, 0, false⟩ = (⟨PC.exited, 0, 0, 0, false⟩, []) :=
  ⟨((adapter_errors_fatal rpcFailEnv (initConfig rpcFailEnv)).1 rfl rfl).1,
   ((adapter_errors_fatal wsFailEnv (initConfig wsFailEnv)).2.1 rfl rfl rfl).1,
   ((adapter_errors_fatal subFailEnv (initConfig subFailEnv)).2.2.1 rfl rfl rfl rfl).1,
   ((adapter_errors_fatal heightFailEnv ⟨PC.loopTop, 0, 0, 0, false⟩).2.2.2.1 rfl rfl).1,
   ((adapter_errors_fatal commFailEnv ⟨PC.heightLoop 0 1, 0, 0, 0, false⟩).2.2.2.2.1 0 1 rfl
     (by decide) rfl).1,
   ((adapter_errors_fatal blockFailEnv ⟨PC.heightLoop 0 1, 0, 0, 0, false⟩).2.2.2.2.2.1 0 1 5 7
     rfl (by decide) rfl rfl rfl).1,
   (adapter_errors_fatal rpcFailEnv ⟨PC.exited, 0, 0, 0, false⟩).2.2.2.2.2.2 rfl⟩

/-- C5 counterexample: the `block_height` variable is not updated to
`height + 1` after each successful submission — after the submission for
height 0 succeeds (six steps of `okEnv`), `block_height` is still 0. -/
theorem claimC5Tracked_false :
    ¬ claimC5Tracked ∧ Event.submitSuccess 0 ∈ (run okEnv 6).2 ∧
    (run okEnv 6).1.blockHeight = 0 := by
  refine ⟨?_, by decide, by decide⟩
  intro hcl
  exact absurd ((hcl okEnv 6 0).mp (by decide)) (by decide)

/-- C5 (amended): `block_height` is only synchronized once per outer loop
iteration (`block_height = current_block_height` after the batch), so the
claimed relation holds at the top of each outer iteration: whenever the
executor is about to read the contract height, the successfully submitted
heights are exactly those below `block_height`, provided the anchored
height never decreases. -/
theorem block_height_at_loop_top (env : Env) (n : Nat) (hmono : HeightMono env)
    (hpc : (run env n).1.pc = PC.loopTop) :
    ∀ m, Event.submitSuccess m ∈ (run env n).2 ↔ m < (run env n).1.blockHeight := by
  obtain ⟨A, S, inv⟩ := inv_run env n
  obtain ⟨hSA, _⟩ := inv.loopTopAS hpc
  obtain ⟨hbh, _⟩ := (inv.monoPart hmono).loopTopM hpc
  intro m
  rw [inv.successMem m, hSA, hbh]

/-- Witness for C5 (amended): after eight steps of `monoEnv` the executor
is back at the top of the outer loop with `block_height = 1`, and height 0
is exactly the successfully submitted height. -/
theorem block_height_at_loop_top_witness :
    Event.submitSuccess 0 ∈ (run monoEnv 8).2 ↔ 0 < (run monoEnv 8).1.blockHeight :=
  block_height_at_loop_top monoEnv 8 monoEnv_mono (by decide) 0

/-- C6: the executor holds the ledger write lock only inside the
`execute_block`/`commit` critical section, and never while in the
submission retry loop (where the attempts and the retry sleeps happen). -/
theorem lock_discipline (env : Env) (n : Nat) :
    ((run env n).1.lockHeld = true → ∃ i ch b, (run env n).1.pc = PC.critical i ch b) ∧
    (∀ i ch sc pf k, (run env n).1.pc = PC.submitting i ch sc pf k →
      (run env n).1.lockHeld = false) := by
  obtain ⟨A, S, inv⟩ := inv_run env n
  constructor
  · exact fun h => inv.lockChar.mp h
  · intro i ch sc pf k hpc
    cases hlk : (run env n).1.lockHeld with
    | false => rfl
    | true =>
      obtain ⟨i2, ch2, b2, hc⟩ := inv.lockChar.mp hlk
      rw [hpc] at hc
      exact absurd hc (by simp)

/-- Witness for C6: after four steps of `okEnv` the lock is held and the
executor is in the critical section; after five it is submitting and the
lock is released. -/
theorem lock_discipline_witness :
    (∃ i ch b, (run okEnv 4).1.pc = PC.critical i ch b) ∧
    (run okEnv 5).1.lockHeld = false :=
  ⟨(lock_discipline okEnv 4).1 (by decide),
   (lock_discipline okEnv 5).2 0 2 3 99 0 (by decide)⟩

/-- C8: every submission attempt for height `h` carries the commitment of
the ledger obtained by applying blocks `0..h` in order (the commitment is
computed in the same critical section as `execute_block`, with no other
writes interleaved), and while submitting for height `i` the ledger equals
that same state, provided the anchored height never decreases. -/
theorem submitted_commitment (env : Env) (n : Nat) (hmono : HeightMono env) :
    (∀ h k sc pf, Event.submitAttempt h k sc pf ∈ (run env n).2 →
      sc = env.ledgerCommit (ledgerUpTo env (h + 1))) ∧
    (∀ i ch sc pf k, (run env n).1.pc = PC.submitting i ch sc pf k →
      (run env n).1.ledger = ledgerUpTo env (i + 1) ∧
      sc = env.ledgerCommit (ledgerUpTo env (i + 1))) := by
  obtain ⟨A, S, inv⟩ := inv_run env n
  refine ⟨(inv.monoPart hmono).attemptSc, ?_⟩
  intro i ch sc pf k hpc
  obtain ⟨hA, hS, hct, hsc⟩ := (inv.monoPart hmono).submittingM i ch sc pf k hpc
  have hled := (inv.monoPart hmono).ledgerTrack
  rw [hA] at hled
  exact ⟨hled, hsc⟩

/-- Witness for C8: in `monoEnv` the attempt for height 0 carries
commitment 3, which is the commitment of the ledger after applying block 0
(genesis 0 plus block content 3). -/
theorem submitted_commitment_witness :
    3 = monoEnv.ledgerCommit (ledgerUpTo monoEnv 1) ∧
    (run monoEnv 5).1.ledger = ledgerUpTo monoEnv 1 :=
  ⟨(submitted_commitment monoEnv 6 monoEnv_mono).1 0 0 3 99 (by decide),
   ((submitted_commitment monoEnv 5 monoEnv_mono).2 0 1 3 99 0 (by decide)).1⟩

/-- C9: on startup the last-processed height is the literal 0 for every
environment (it is not read back from the anchor contract or any persisted
state), and after the connection preamble the executor starts its first
batch at height 0 up to whatever the current anchored height is. -/
theorem startup_from_zero (env : Env) :
    (run env 0).1.blockHeight = 0 ∧ (run env 0).1.pc = PC.startup ∧
    (env.connectRpcOk = true → env.wsConnectOk = true → env.subscribeLogsOk = true →
      (run env 1).1.pc = PC.loopTop ∧ (run env 1).1.blockHeight = 0 ∧
      ∀ ch, env.contractHeight 0 = some ch → (run env 2).1.pc = PC.heightLoop 0 ch) := by
  refine ⟨rfl, rfl, ?_⟩
  intro h1 h2 h3
  refine ⟨?_, ?_, ?_⟩
  · simp [run, step, initConfig, h1, h2, h3]
  · simp [run, step, initConfig, h1, h2, h3]
  · intro ch hch
    simp [run, step, initConfig, h1, h2, h3, hch]

/-- Witness for C9: in `okEnv` (anchored height 2) the executor starts at
height 0 and enters the batch `0..2`. -/
theorem startup_from_zero_witness :
    (run okEnv 0).1.blockHeight = 0 ∧ (run okEnv 2).1.pc = PC.heightLoop 0 2 :=
  ⟨(startup_from_zero okEnv).1, ((startup_from_zero okEnv).2.2 rfl rfl rfl).2.2 2 rfl⟩

/-- C7 counterexample: a malformed signed payload does not yield a
client-facing error response — the `submit` handler panics
(`.expect("serialization failed")`). -/
theorem claimC7Errors_false :
    ¬ claimC7Errors ∧
    submitHandler none (fun _ => none) = RouteOutcome.panicked "serialization failed" := by
  refine ⟨?_, rfl⟩
  intro hcl
  obtain ⟨st, msg, heq, _⟩ :=
    ((hcl (fun _ => none) (fun _ => 0) "" none (fun _ => none)).2 rfl)
  exact absurd heq (by simp [submitHandler])

/-- C7 (amended): a malformed address yields a client-facing `BadRequest`
error with an explicit reason string, while a malformed signed payload
makes the submit handler panic with the message of the source `.expect`
rather than returning an error response. -/
theorem api_malformed_inputs (parseAddress : String → Option Nat) (getBalance : Nat → Nat)
    (s : String) (forward : Nat → Option (Nat × String)) :
    (parseAddress s = none →
      balanceHandler parseAddress getBalance s = RouteOutcome.clientError 400
        "Malformed address. Ensure that the address is valid hex encoded Ethereum address.") ∧
    submitHandler none forward = RouteOutcome.panicked "serialization failed" := by
  constructor
  · intro hp
    simp [balanceHandler, hp]
  · rfl

/-- Witness for C7 (amended): concrete instantiation with an unparseable
address. -/
theorem api_malformed_inputs_witness :
    balanceHandler (fun _ => none) (fun _ => 0) "zz" = RouteOutcome.clientError 400
      "Malformed address. Ensure that the address is valid hex encoded Ethereum address." ∧
    submitHandler none (fun _ => none) = RouteOutcome.panicked "serialization failed" :=
  ⟨(api_malformed_inputs (fun _ => none) (fun _ => 0) "zz" (fun _ => none)).1 rfl,
   (api_malformed_inputs (fun _ => none) (fun _ => 0) "zz" (fun _ => none)).2⟩

end SequencerL2
